import Mathlib

/-!
Verification of the `mark` directory-bookmarking CLI.

The bookmark store (create / list / delete / jump) and the command-line flag
parser are embedded from the Go source (`main.go`, `completion.go`).  The
file system is modelled as a marks directory (an association list from entry
names to nodes) together with a world map from absolute paths to nodes;
symbolic-link resolution (`filepath.EvalSymlinks` / `os.Stat` following
links) walks symlink chains in the world map with fuel `world.length + 1`,
which is enough fuel to reach any terminal node and to detect every cycle.
Go strings are modelled as Lean `String`s; character-level operations work
on `String.data`, and command-line arguments are modelled as `List Char`.

The unified shell-RC subsystem (`generateBashRC`, `getEnabledFeatures`,
`ensureSourceLine`, `getRCFilePath`, `writeShellRC`, introduced in the
v0.1.3 release) is exercised by the repository's tests and release notes but
its implementation is not part of this source snapshot; those functions are
modelled from the specification (see the `Modelled from the spec:` doc
comments below).
-/

namespace Mark

/-- A file-system node: a real directory, a regular file, or a symbolic link
whose stored link text is `target`. -/
inductive FType where
  | dir : FType
  | file : FType
  | symlink (target : String) : FType
deriving DecidableEq

/-- First-match lookup in an association list, the model of looking an entry
up by name/path. -/
def lookupEntries : List (String × FType) → String → Option FType
  | [], _ => none
  | (k, v) :: rest, n => if k = n then some v else lookupEntries rest n

/-- The file-system state seen by the bookmark operations: whether the marks
directory exists, its entries (name to node), and the rest of the file
system (absolute path to node), used to resolve symlink targets. -/
structure FS where
  marksDirExists : Bool
  marks : List (String × FType)
  world : List (String × FType)
deriving DecidableEq

/-- Model of `os.Lstat(filepath.Join(marksDir, name))`: looks the entry up without
following links; fails (`none`) when the marks directory itself or the entry
does not exist. -/
def FS.marksLookup (fs : FS) (n : String) : Option FType :=
  if fs.marksDirExists then lookupEntries fs.marks n else none

/-- Node lookup for an absolute path outside the marks directory. -/
def FS.worldLookup (fs : FS) (p : String) : Option FType :=
  lookupEntries fs.world p

/-- Fueled symlink-chain resolution: follows symlinks until a real directory
or file is reached; `none` when a path is missing or the fuel runs out
(which with fuel `world.length + 1` only happens on symlink cycles, where
`filepath.EvalSymlinks` also fails). -/
def resolveN (fs : FS) : Nat → String → Option String
  | 0, _ => none
  | fuel + 1, p =>
    match fs.worldLookup p with
    | none => none
    | some .dir => some p
    | some .file => some p
    | some (.symlink t) => resolveN fs fuel t

/-- Model of `filepath.EvalSymlinks` on a world path: the fully resolved existing
path, or `none` when resolution fails. -/
def FS.resolve (fs : FS) (p : String) : Option String :=
  resolveN fs (fs.world.length + 1) p

/-- Model of `os.Stat` on a world path: follows the whole symlink chain and returns
the node at its end. -/
def FS.statPath (fs : FS) (p : String) : Option FType :=
  match fs.resolve p with
  | none => none
  | some q => fs.worldLookup q

/-- Model of `os.Stat(filepath.Join(marksDir, name))`: stats the marks entry,
following the bookmark link into the world when the entry is a symlink. -/
def FS.statMark (fs : FS) (n : String) : Option FType :=
  match fs.marksLookup n with
  | none => none
  | some (.symlink t) => fs.statPath t
  | some e => some e

/-- The test `fileInfo.Mode()&os.ModeSymlink != 0`. -/
def FType.isSymlink : FType → Bool
  | .symlink _ => true
  | _ => false

/-- The test `fileInfo.IsDir()`. -/
def FType.isDir : FType → Bool
  | .dir => true
  | _ => false

/-- The error classes of the specification's error taxonomy that the
bookmark operations can exit with (each is an `os.Exit(1)` with a distinct
message in the source). -/
inductive MarkError where
  | emptyName : MarkError
  | notFound : MarkError
  | notABookmark : MarkError
  | brokenBookmark : MarkError
  | notADirectory : MarkError
  | invalidName : MarkError
  | alreadyExists : MarkError
  | targetNotFound : MarkError
  | targetNotDir : MarkError
  | unsupportedShell : MarkError
deriving DecidableEq

/-- Embedding of `jumpBookmark` (main.go): on success returns the single line printed to
standard output — the fully resolved target path; every failure is an
`os.Exit(1)` with nothing on standard output.  The guard for an empty name
mirrors the `name == ""` check at the top of the Go function. -/
def jumpBookmark (fs : FS) (name : String) : Except MarkError String :=
  if name = "" then .error .emptyName
  else
    match fs.marksLookup name with
    | none => .error .notFound
    | some .dir => .error .notABookmark
    | some .file => .error .notABookmark
    | some (.symlink t) =>
      match fs.resolve t with
      | none => .error .brokenBookmark
      | some targetPath =>
        match fs.statPath targetPath with
        | none => .error .brokenBookmark
        | some info => if info.isDir then .ok targetPath else .error .notADirectory

/-- Removes the first entry with the given name (`os.Remove` on the symlink
path). -/
def eraseEntry : List (String × FType) → String → List (String × FType)
  | [], _ => []
  | (k, v) :: rest, n => if k = n then rest else (k, v) :: eraseEntry rest n

/-- Embedding of `deleteBookmark` (main.go): returns the file system after the call
together with the outcome. -/
def deleteBookmark (fs : FS) (name : String) : FS × Except MarkError Unit :=
  if name = "" then (fs, .error .emptyName)
  else
    match fs.marksLookup name with
    | none => (fs, .error .notFound)
    | some .dir => (fs, .error .notABookmark)
    | some .file => (fs, .error .notABookmark)
    | some (.symlink _) => ({ fs with marks := eraseEntry fs.marks name }, .ok ())

/-- The tilde-expansion step of `expandPath`: `filepath.Join(homeDir,
path[2:])` modelled as plain concatenation with a separator. -/
def expandTilde (home p : String) : String :=
  match p.data with
  | '~' :: '/' :: rest => String.mk (home.data ++ '/' :: rest)
  | _ => p

/-- Embedding of `expandPath` (main.go): tilde expansion followed by
`filepath.EvalSymlinks`, falling back to the unresolved path when
resolution fails. -/
def expandPath (fs : FS) (home p : String) : String :=
  let p1 := expandTilde home p
  match fs.resolve p1 with
  | some q => q
  | none => p1

/-- Drops trailing path separators, as `filepath.Base` does. -/
def stripTrailingSep (l : List Char) : List Char :=
  (l.reverse.dropWhile (· = '/')).reverse

/-- The characters after the last separator. -/
def lastComponent (l : List Char) : List Char :=
  (l.reverse.takeWhile (· ≠ '/')).reverse

/-- Model of `filepath.Base`: `.` for the empty path, `/` for all-separator paths,
otherwise the last path component. -/
def baseName (p : String) : String :=
  if p = "" then "."
  else
    let b := lastComponent (stripTrailingSep p.data)
    if b = [] then "/" else String.mk b

/-- The sanitizer `strings.ReplaceAll(name, " ", "_")`. -/
def sanitizeName (s : String) : String :=
  String.mk (s.data.map fun c => if c = ' ' then '_' else c)

/-- The test `strings.Contains(name, string(os.PathSeparator))`. -/
def containsSep (s : String) : Bool :=
  s.data.contains '/'

/-- Embedding of `createBookmark` (main.go): validates the target path (explicit target
or current working directory), derives and sanitizes the bookmark name,
ensures the marks directory exists (`os.MkdirAll`), rejects occupied names
(`os.Lstat`), and finally creates the symlink.  Returns the file system
after the call and the outcome (the stored name on success). -/
def createBookmark (fs : FS) (home cwd name targetPath : String) :
    FS × Except MarkError String :=
  let targetRes : Except MarkError String :=
    if targetPath = "" then .ok cwd
    else
      let td := expandPath fs home targetPath
      match fs.statPath td with
      | none => .error .targetNotFound
      | some .dir => .ok td
      | some _ => .error .targetNotDir
  match targetRes with
  | .error e => (fs, .error e)
  | .ok targetDir =>
    let name1 := if name = "" then baseName targetDir else name
    let name2 := sanitizeName name1
    if containsSep name2 then (fs, .error .invalidName)
    else if name2 = "" then (fs, .error .invalidName)
    else
      let fs1 : FS := { fs with marksDirExists := true }
      match fs1.marksLookup name2 with
      | some _ => (fs1, .error .alreadyExists)
      | none => ({ fs1 with marks := fs1.marks ++ [(name2, .symlink targetDir)] },
                 .ok name2)

/-- One line of `mark -l` output: entry name, stored link text, and whether
the link is broken. -/
structure BookmarkInfo where
  name : String
  target : String
  broken : Bool
deriving DecidableEq

/-- The comparison `bookmarks[i].name < bookmarks[j].name` used by
`sort.Slice`, relaxed to `≤` for sorting. -/
def bookmarkLE (a b : BookmarkInfo) : Prop :=
  a.name ≤ b.name

instance : DecidableRel bookmarkLE := fun a b =>
  inferInstanceAs (Decidable (a.name ≤ b.name))

instance : IsTotal BookmarkInfo bookmarkLE :=
  ⟨fun a b => le_total a.name b.name⟩

instance : IsTrans BookmarkInfo bookmarkLE :=
  ⟨fun _ _ _ h1 h2 => le_trans h1 h2⟩

/-- The names `os.ReadDir` reports for the marks directory (each once). -/
def dirEntryNames (fs : FS) : List String :=
  (fs.marks.map Prod.fst).dedup

/-- Embedding of `listBookmarks` (main.go): reads the marks directory (a missing
directory yields the empty listing, not an error), keeps only symbolic-link
entries, marks an entry broken when `os.Stat` on it fails, and sorts the
records by name. -/
def listBookmarks (fs : FS) : List BookmarkInfo :=
  if fs.marksDirExists = false then []
  else
    List.insertionSort bookmarkLE
      ((dirEntryNames fs).filterMap fun n =>
        match lookupEntries fs.marks n with
        | some (.symlink t) => some ⟨n, t, (fs.statMark n).isNone⟩
        | _ => none)

/-- The fields of the Go `ParsedFlags` struct.  `Delete`/`Jump` hold the
bookmark-name argument (`""`, i.e. `[]`, when the flag was absent). -/
structure ParsedFlags where
  Delete : List Char := []
  Jump : List Char := []
  List : Bool := false
  Config : Bool := false
  Autocomplete : Bool := false
  Alias : Bool := false
  Help : Bool := false
  Version : Bool := false
deriving DecidableEq

/-- The `os.Exit(1)` outcomes of `parseFlags`. -/
inductive ParseError where
  | deleteNeedsName : ParseError
  | jumpNeedsName : ParseError
  | deleteNotLast : ParseError
  | jumpNotLast : ParseError
  | unknownFlag (c : Char) : ParseError
deriving DecidableEq

/-- Outcome of scanning one combined short-flag group (the inner
`for j, char := range flagChars` loop): finished normally, stopped at a
trailing `d`/`j` that needs the next argument, or exited with an error. -/
inductive ShortOutcome where
  | done (f : ParsedFlags) : ShortOutcome
  | needDelete (f : ParsedFlags) : ShortOutcome
  | needJump (f : ParsedFlags) : ShortOutcome
  | unknown (c : Char) : ShortOutcome
  | dNotLast : ShortOutcome
  | jNotLast : ShortOutcome
deriving DecidableEq

/-- The inner loop over the characters of a short-flag group.  `d`/`j` are
accepted only as the last character of the group (`j == len(flagChars)-1`);
any other unrecognized character is a fatal error. -/
def applyShort (f : ParsedFlags) : List Char → ShortOutcome
  | [] => .done f
  | c :: cs =>
    if c = 'v' then applyShort { f with Version := true } cs
    else if c = 'h' then applyShort { f with Help := true } cs
    else if c = 'l' then applyShort { f with List := true } cs
    else if c = 'd' then (if cs = [] then .needDelete f else .dNotLast)
    else if c = 'j' then (if cs = [] then .needJump f else .jNotLast)
    else .unknown c

/-- Whether a short-flag scan ended in a fatal error. -/
def ShortOutcome.isFail : ShortOutcome → Bool
  | .unknown _ => true
  | .dNotLast => true
  | .jNotLast => true
  | _ => false

/-- Whether a short-flag scan finished without error or pending argument. -/
def ShortOutcome.isDone : ShortOutcome → Bool
  | .done _ => true
  | _ => false

/-- The effect of one simple short flag (`v`/`h`/`l`). -/
def setSimple (f : ParsedFlags) (c : Char) : ParsedFlags :=
  if c = 'v' then { f with Version := true }
  else if c = 'h' then { f with Help := true }
  else if c = 'l' then { f with List := true }
  else f

/-- The accumulated effect of a run of simple short flags. -/
def applySimple (f : ParsedFlags) (pre : List Char) : ParsedFlags :=
  pre.foldl setSimple f

/-- How the loop treats one argument that matched no exact long option:
either a positional argument (the unknown-long-flag pass-through, a bare
`-`, the empty argument, or any argument without a leading dash) or a
short-flag group with the given body (`HasPrefix(arg, "-") && len(arg) >
1` and not `HasPrefix(arg, "--")`). -/
inductive ArgClass where
  | positional : ArgClass
  | short (body : List Char) : ArgClass
deriving DecidableEq

/-- The prefix tests of `parseFlags` on one argument. -/
def classifyArg (a : List Char) : ArgClass :=
  match a with
  | [] => .positional
  | a0 :: atail =>
    if a0 = '-' then
      match atail with
      | [] => .positional
      | a1 :: atail2 => if a1 = '-' then .positional else .short (a1 :: atail2)
    else .positional

/-- Whether the loop has just seen a trailing `-d`/`-j` and must consume
the next argument as its bookmark name — the model of the `i++`
consumption in the Go loop. -/
inductive Pending where
  | free : Pending
  | forDelete : Pending
  | forJump : Pending
deriving DecidableEq

/-- The loop state of `parseFlags`: the flags so far, the reversed
positional arguments so far, and whether the next argument is already
claimed by `-d`/`-j`. -/
structure ParseState where
  f : ParsedFlags
  acc : List (List Char)
  pending : Pending
deriving DecidableEq

/-- One iteration of the `parseFlags` loop on one argument: an argument
claimed by a preceding trailing `-d`/`-j` is consumed as the bookmark name
(never inspected as a flag); otherwise the exact long options are tested
first, any other `--`-prefixed argument is passed through as positional,
short-flag groups are scanned, and everything else is positional. -/
def parseStep (s : ParseState) (a : List Char) : Except ParseError ParseState :=
  match s.pending with
  | .forDelete => .ok ⟨{ s.f with Delete := a }, s.acc, .free⟩
  | .forJump => .ok ⟨{ s.f with Jump := a }, s.acc, .free⟩
  | .free =>
    if a = "--help".data then .ok ⟨{ s.f with Help := true }, s.acc, .free⟩
    else if a = "--version".data then .ok ⟨{ s.f with Version := true }, s.acc, .free⟩
    else if a = "--config".data then .ok ⟨{ s.f with Config := true }, s.acc, .free⟩
    else if a = "--autocomplete".data then
      .ok ⟨{ s.f with Autocomplete := true }, s.acc, .free⟩
    else if a = "--alias".data then .ok ⟨{ s.f with Alias := true }, s.acc, .free⟩
    else
      match classifyArg a with
      | .positional => .ok ⟨s.f, a :: s.acc, .free⟩
      | .short body =>
        match applyShort s.f body with
        | .done f2 => .ok ⟨f2, s.acc, .free⟩
        | .needDelete f2 => .ok ⟨f2, s.acc, .forDelete⟩
        | .needJump f2 => .ok ⟨f2, s.acc, .forJump⟩
        | .unknown ch => .error (.unknownFlag ch)
        | .dNotLast => .error .deleteNotLast
        | .jNotLast => .error .jumpNotLast

/-- The `parseFlags` loop: runs `parseStep` over the arguments; a
`-d`/`-j` still waiting for its name when the arguments run out is the
fatal `flag requires a bookmark name` error. -/
def parseFlagsAux (s : ParseState) :
    List (List Char) → Except ParseError (ParsedFlags × List (List Char))
  | [] =>
    match s.pending with
    | .free => .ok (s.f, s.acc.reverse)
    | .forDelete => .error .deleteNeedsName
    | .forJump => .error .jumpNeedsName
  | a :: rest =>
    match parseStep s a with
    | .error e => .error e
    | .ok s2 => parseFlagsAux s2 rest

/-- Entry point `parseFlags(os.Args[1:])`. -/
def parseFlags (args : List (List Char)) :
    Except ParseError (ParsedFlags × List (List Char)) :=
  parseFlagsAux ⟨{}, [], .free⟩ args

/-- The command selected by `main` after flag parsing. -/
inductive Action where
  | showVersion : Action
  | showHelp : Action
  | runConfig : Action
  | runAutocomplete : Action
  | runAliasSetup : Action
  | listMarks : Action
  | deleteMark (name : List Char) : Action
  | jumpMark (name : List Char) : Action
  | createMark (name target : List Char) : Action
deriving DecidableEq

/-- The dispatch order of `main` (main.go): version, help, config,
autocomplete, alias, list, delete, jump, and otherwise bookmark creation
from the positional arguments. -/
def dispatch (f : ParsedFlags) (args : List (List Char)) : Action :=
  if f.Version then .showVersion
  else if f.Help then .showHelp
  else if f.Config then .runConfig
  else if f.Autocomplete then .runAutocomplete
  else if f.Alias then .runAliasSetup
  else if f.List then .listMarks
  else if f.Delete ≠ [] then .deleteMark f.Delete
  else if f.Jump ≠ [] then .jumpMark f.Jump
  else
    match args with
    | [] => .createMark [] []
    | [a] => .createMark a []
    | a :: b :: _ => .createMark a b

/-- Modelled from the spec: `rcFilePath(shell)` — the fixed per-shell RC
file path (a dotfile for bash and zsh, a conf.d fragment for fish, the
empty sentinel for unsupported shells).  The implementation
(`getRCFilePath`, v0.1.3) is missing from this source snapshot. -/
def getRCFilePath (home shell : String) : String :=
  if shell = "bash" then home ++ "/.mark_bash_rc"
  else if shell = "zsh" then home ++ "/.mark_zsh_rc"
  else if shell = "fish" then home ++ "/.config/fish/conf.d/mark.fish"
  else ""

/-- Modelled from the spec: the machine-parsable feature line — lowercase
feature names, space separated, in the fixed order `aliases` then
`completions`. -/
def featuresLine (includeAliases includeCompletions : Bool) : String :=
  "# Features:" ++ (if includeAliases then " aliases" else "")
    ++ (if includeCompletions then " completions" else "")

/-- Modelled from the spec: the alias block shared by the bash and zsh RC
files — listing alias, removal alias, and a `jump` function that changes
directory on success, all embedding the mark binary path. -/
def posixAliasLines (markBinaryPath : String) : List String :=
  ["",
   "# mark command aliases",
   "alias marks=" ++ markBinaryPath ++ " -l",
   "alias unmark=" ++ markBinaryPath ++ " -d",
   "function jump() \x7b",
   "    local target=$(" ++ markBinaryPath ++ " -j $1)",
   "    if [ $? -eq 0 ] && [ -n $target ]; then cd $target; fi",
   "\x7d"]

/-- Modelled from the spec: the bash completion block — a discoverable
helper listing bookmarks with their targets plus a completion hook
registered for `mark`, `marks`, `unmark` and `jump`. -/
def bashCompletionLines (markBinaryPath : String) : List String :=
  ["",
   "# mark completion",
   "_mark_list_with_paths() \x7b",
   "    " ++ markBinaryPath ++ " -l",
   "\x7d",
   "_mark_complete() \x7b",
   "    COMPREPLY=($(compgen -W $(ls ~/.marks) -- $cur))",
   "\x7d",
   "complete -F _mark_complete mark",
   "complete -F _mark_complete marks",
   "complete -F _mark_complete unmark",
   "complete -F _mark_complete jump"]

/-- Modelled from the spec: the zsh completion block. -/
def zshCompletionLines (markBinaryPath : String) : List String :=
  ["",
   "# mark completion",
   "_mark_list_with_paths() \x7b",
   "    " ++ markBinaryPath ++ " -l",
   "\x7d",
   "_mark_complete() \x7b",
   "    compadd -W $(ls ~/.marks)",
   "\x7d",
   "autoload -U +X compinit && compinit",
   "compdef _mark_complete mark",
   "compdef _mark_complete marks",
   "compdef _mark_complete unmark",
   "compdef _mark_complete jump"]

/-- Modelled from the spec: the fish alias block. -/
def fishAliasLines (markBinaryPath : String) : List String :=
  ["",
   "# mark command aliases",
   "alias marks " ++ markBinaryPath ++ " -l",
   "alias unmark " ++ markBinaryPath ++ " -d",
   "function jump",
   "    set -l target (" ++ markBinaryPath ++ " -j $argv)",
   "    if test $status -eq 0 -a -n $target",
   "        cd $target",
   "    end",
   "end"]

/-- Modelled from the spec: the fish completion block. -/
def fishCompletionLines (markBinaryPath : String) : List String :=
  ["",
   "# mark completion",
   "function __fish_mark_list_bookmarks",
   "    " ++ markBinaryPath ++ " -l",
   "end",
   "complete -c mark -f -a (__fish_mark_list_bookmarks)",
   "complete -c marks -f -a (__fish_mark_list_bookmarks)",
   "complete -c unmark -f -a (__fish_mark_list_bookmarks)",
   "complete -c jump -f -a (__fish_mark_list_bookmarks)"]

/-- Modelled from the spec: `generateBashRC(markPath, includeAliases,
includeCompletions)` (missing from this snapshot, exercised by the
repository tests) — fixed header block ending in the feature line, then
the optional alias and completion blocks. -/
def generateBashRC (markBinaryPath : String) (a c : Bool) : List String :=
  "#!/bin/bash" :: "# mark shell configuration" :: "# Generated by mark" ::
    featuresLine a c ::
    ((if a then posixAliasLines markBinaryPath else [])
      ++ (if c then bashCompletionLines markBinaryPath else []))

/-- Modelled from the spec: `generateZshRC`. -/
def generateZshRC (markBinaryPath : String) (a c : Bool) : List String :=
  "#!/bin/zsh" :: "# mark shell configuration" :: "# Generated by mark" ::
    featuresLine a c ::
    ((if a then posixAliasLines markBinaryPath else [])
      ++ (if c then zshCompletionLines markBinaryPath else []))

/-- Modelled from the spec: `generateFishRC` (no shebang in a conf.d
fragment). -/
def generateFishRC (markBinaryPath : String) (a c : Bool) : List String :=
  "# mark shell configuration" :: "# Generated by mark" ::
    featuresLine a c ::
    ((if a then fishAliasLines markBinaryPath else [])
      ++ (if c then fishCompletionLines markBinaryPath else []))

/-- Modelled from the spec: the per-shell RC generator dispatch; `none`
for an unsupported shell. -/
def generateRC (shell markBinaryPath : String) (a c : Bool) : Option (List String) :=
  if shell = "bash" then some (generateBashRC markBinaryPath a c)
  else if shell = "zsh" then some (generateZshRC markBinaryPath a c)
  else if shell = "fish" then some (generateFishRC markBinaryPath a c)
  else none

/-- Modelled from the spec: `writeShellRC(shell, includeAliases,
includeCompletions)` — renders the RC text and writes it to
`rcFilePath(shell)`; fails for unsupported shells.  Returns the written
path and content. -/
def writeShellRC (home shell markBinaryPath : String) (a c : Bool) :
    Except MarkError (String × List String) :=
  match generateRC shell markBinaryPath a c with
  | none => .error .unsupportedShell
  | some content => .ok (getRCFilePath home shell, content)

/-- The characters of the feature-line prefix. -/
def featureHeaderTag : List Char := "# Features:".data

/-- Whether a line is the machine-parsable feature line. -/
def isFeaturesLine (l : String) : Bool := featureHeaderTag.isPrefixOf l.data

/-- Splits a character list on spaces (accumulator-based). -/
def wordsAux (cur : List Char) : List Char → List (List Char)
  | [] => [cur.reverse]
  | ch :: rest => if ch = ' ' then cur.reverse :: wordsAux [] rest
                  else wordsAux (ch :: cur) rest

/-- The space-separated words of a string. -/
def wordsOf (s : String) : List (List Char) := wordsAux [] s.data

/-- Modelled from the spec: `getEnabledFeatures(shell)` (missing from this
snapshot) parses the feature line of a previously generated RC file
(`none` models a missing file) and returns the `(aliases, completions)`
booleans; a missing file or missing header yields `(false, false)`. -/
def getEnabledFeatures (content : Option (List String)) : Bool × Bool :=
  match content with
  | none => (false, false)
  | some lines =>
    match lines.find? isFeaturesLine with
    | none => (false, false)
    | some l => ((wordsOf l).contains ("aliases".data),
                 (wordsOf l).contains ("completions".data))

/-- The fixed marker comment of the appended source block. -/
def markerComment : String := "# mark shell integration"

/-- The per-shell RC file base name used in the startup file. -/
def rcFileName (shell : String) : String :=
  if shell = "bash" then ".mark_bash_rc"
  else if shell = "zsh" then ".mark_zsh_rc"
  else ""

/-- The conditional source line of the appended block. -/
def rcSourceLine (rcName : String) : String :=
  "[ -f ~/" ++ rcName ++ " ] && source ~/" ++ rcName

/-- The marked block appended to the shell startup file: a blank line, the
marker comment, and the conditional source line. -/
def sourceBlock (rcName : String) : List String :=
  ["", markerComment, rcSourceLine rcName]

/-- Substring test on character lists (`strings.Contains`). -/
def hasSubstring (pat : List Char) : List Char → Bool
  | [] => pat.isEmpty
  | ch :: rest => pat.isPrefixOf (ch :: rest) || hasSubstring pat rest

/-- One line of evidence that a startup file already sources the mark RC
file: it mentions the RC file name or carries the marker comment. -/
def lineHasSourceEvidence (rcName l : String) : Bool :=
  hasSubstring rcName.data l.data || hasSubstring markerComment.data l.data

/-- Modelled from the spec: `isSourceLinePresent(file)` (missing from this
snapshot) — scans the startup file line by line for evidence that it
sources the mark RC file; a missing file yields `false`, not an error. -/
def isSourceLinePresent (rcName : String) (file : Option (List String)) : Bool :=
  match file with
  | none => false
  | some lines => lines.any (lineHasSourceEvidence rcName)

/-- Modelled from the spec: `ensureSourceLine(shell)` (missing from this
snapshot) appends the marked source block to the startup file only when
`isSourceLinePresent` is false for that file; fish requires no
startup-file edit and is a no-op (as is an unsupported shell). -/
def ensureSourceLine (shell : String) (startup : Option (List String)) :
    Option (List String) :=
  if shell = "bash" ∨ shell = "zsh" then
    let rcName := rcFileName shell
    if isSourceLinePresent rcName startup then startup
    else some (startup.getD [] ++ sourceBlock rcName)
  else startup

/-- The exact-count check on the marker comment (`strings.Count` of the
marker over the startup file). -/
def markerCount (file : Option (List String)) : Nat :=
  (file.getD []).countP fun l => hasSubstring markerComment.data l.data

/-- A sample file system used by the witnesses: one healthy bookmark, one
non-symlink entry, one broken bookmark, one bookmark onto a file. -/
def fsEx : FS :=
  { marksDirExists := true
    marks := [("app", .symlink ("/home/u/projects/app")),
              ("gone", .symlink ("/deleted")),
              ("notes", .file),
              ("tofile", .symlink ("/tmp/f"))]
    world := [("/home/u/projects/app", .dir),
              ("/link", .symlink ("/home/u/projects/app")),
              ("/tmp/f", .file),
              ("/tmp/x", .dir)] }

/-- A file system whose marks directory does not exist. -/
def fsNoDir : FS :=
  { marksDirExists := false
    marks := []
    world := [("/tmp/x", .dir)] }

/-- Claim C1, per case: jump fails with `NotFound` when the entry is
missing, `NotABookmark` on a non-symlink entry, `BrokenBookmark` when the
link does not resolve, `NotADirectory` when it resolves to a file; on
success it prints exactly the fully resolved directory path — any printed
path is the symlink-chain resolution of the link text and names a real
directory, never the raw link text of a further link. -/
def JumpClaim (fs : FS) (name : String) : Prop :=
  (fs.marksLookup name = none → jumpBookmark fs name = .error .notFound) ∧
  (∀ e, fs.marksLookup name = some e → e.isSymlink = false →
    jumpBookmark fs name = .error .notABookmark) ∧
  (∀ t, fs.marksLookup name = some (.symlink t) → fs.resolve t = none →
    jumpBookmark fs name = .error .brokenBookmark) ∧
  (∀ t p, fs.marksLookup name = some (.symlink t) → fs.resolve t = some p →
    fs.worldLookup p = some .file → jumpBookmark fs name = .error .notADirectory) ∧
  (∀ t p, fs.marksLookup name = some (.symlink t) → fs.resolve t = some p →
    fs.worldLookup p = some .dir → jumpBookmark fs name = .ok p) ∧
  (∀ t q, fs.marksLookup name = some (.symlink t) → jumpBookmark fs name = .ok q →
    fs.resolve t = some q ∧ fs.worldLookup q = some .dir)

/-- Claim C5, per case: delete fails with `NotFound` when the entry is
missing and `NotABookmark` on a non-symlink entry (leaving the file system
unchanged in both cases); on success it removes exactly the symlink — the
entry is gone, every other entry and the whole world (in particular the
link's target) are untouched. -/
def DeleteClaim (fs : FS) (name : String) : Prop :=
  (fs.marksLookup name = none → deleteBookmark fs name = (fs, .error .notFound)) ∧
  (∀ e, fs.marksLookup name = some e → e.isSymlink = false →
    deleteBookmark fs name = (fs, .error .notABookmark)) ∧
  (∀ t, fs.marksLookup name = some (.symlink t) →
    (deleteBookmark fs name).2 = .ok () ∧
    (deleteBookmark fs name).1.marksLookup name = none ∧
    (∀ m, m ≠ name → (deleteBookmark fs name).1.marksLookup m = fs.marksLookup m) ∧
    (deleteBookmark fs name).1.world = fs.world)

/-- Claim C3: with a valid, existing target directory, the stored bookmark
name is the requested name with every space replaced by an underscore (the
created entry is keyed by `sanitizeName name`); when the sanitized derived
name still contains a path separator or is empty, create fails with
`InvalidName` and the file system is unchanged (no symlink is created). -/
def CreateNameClaim (fs : FS) (home cwd name targetPath : String) : Prop :=
  (name ≠ "" → containsSep (sanitizeName name) = false →
    lookupEntries fs.marks (sanitizeName name) = none →
    createBookmark fs home cwd name targetPath =
      ({ marksDirExists := true
         marks := fs.marks ++
           [(sanitizeName name, .symlink (expandPath fs home targetPath))]
         world := fs.world }, .ok (sanitizeName name))) ∧
  (∀ nm1, nm1 = (if name = "" then baseName (expandPath fs home targetPath) else name) →
    (containsSep (sanitizeName nm1) = true ∨ sanitizeName nm1 = "") →
    createBookmark fs home cwd name targetPath = (fs, .error .invalidName))

/-- Claim C9: `-d`/`-j` anywhere but last in a combined short-flag group is
a fatal parse error, as is a trailing `-d`/`-j` with no following
argument; when `-d`/`-j` ends its group and an argument follows, that
argument is consumed as the bookmark name and parsing continues on the
remaining arguments (so the name is never a positional argument). -/
def ShortFlagClaim : Prop :=
  (∀ pre c suf rest, (c = 'd' ∨ c = 'j') → suf ≠ [] →
    (pre ++ c :: suf).head? ≠ some '-' →
    ∃ e, parseFlags (('-' :: (pre ++ c :: suf)) :: rest) = .error e) ∧
  (∀ pre c, (c = 'd' ∨ c = 'j') → (pre ++ [c]).head? ≠ some '-' →
    ∃ e, parseFlags [('-' :: (pre ++ [c]))] = .error e) ∧
  (∀ pre name rest f acc, (∀ x ∈ pre, x = 'v' ∨ x = 'h' ∨ x = 'l') →
    parseFlagsAux ⟨f, acc, .free⟩ (('-' :: (pre ++ ['d'])) :: name :: rest) =
      parseFlagsAux ⟨{ applySimple f pre with Delete := name }, acc, .free⟩ rest) ∧
  (∀ pre name rest f acc, (∀ x ∈ pre, x = 'v' ∨ x = 'h' ∨ x = 'l') →
    parseFlagsAux ⟨f, acc, .free⟩ (('-' :: (pre ++ ['j'])) :: name :: rest) =
      parseFlagsAux ⟨{ applySimple f pre with Jump := name }, acc, .free⟩ rest)

/-- The five long options `parseFlags` recognizes. -/
def longFlags : List (List Char) :=
  ["--help".data, "--version".data, "--config".data,
   "--autocomplete".data, "--alias".data]

/-- Claim C10: an unrecognized long option is passed through as a
positional argument (so `mark --foo` dispatches to bookmark creation with
name `--foo`), while an unrecognized short-flag letter is a fatal error. -/
def LongFlagClaim : Prop :=
  (∀ t rest acc f, ('-' :: '-' :: t) ∉ longFlags →
    parseFlagsAux ⟨f, acc, .free⟩ (('-' :: '-' :: t) :: rest) =
      parseFlagsAux ⟨f, ('-' :: '-' :: t) :: acc, .free⟩ rest) ∧
  (∀ t, ('-' :: '-' :: t) ∉ longFlags →
    parseFlags [('-' :: '-' :: t)] = .ok ({}, [('-' :: '-' :: t)])) ∧
  (parseFlags [("--foo".data)] = .ok ({}, [("--foo".data)]) ∧
    dispatch {} [("--foo".data)] = .createMark ("--foo".data) []) ∧
  (∀ ch, ch ≠ 'v' → ch ≠ 'h' → ch ≠ 'l' → ch ≠ 'd' → ch ≠ 'j' → ch ≠ '-' →
    parseFlags [['-', ch]] = .error (.unknownFlag ch))

/-- Claim C8's header property: the file begins with a nonempty block of
comment lines, one of which is the machine-parsable feature line. -/
def RCHeaderProp (content : List String) : Prop :=
  ∃ hdr rest, content = hdr ++ rest ∧ hdr ≠ [] ∧
    (∀ l ∈ hdr, ("#".data.isPrefixOf l.data) = true) ∧
    (∃ l ∈ hdr, isFeaturesLine l = true)

/-- Amended claim C7: the installer appends its marked block only when the
presence check is false (so a present file is left unchanged); when the
initial content contains no source-line evidence at all, two successive
calls leave exactly one occurrence of the marker comment. -/
def EnsureClaim : Prop :=
  (∀ shell startup, isSourceLinePresent (rcFileName shell) startup = true →
    ensureSourceLine shell startup = startup) ∧
  (∀ shell startup, (shell = "bash" ∨ shell = "zsh") →
    isSourceLinePresent (rcFileName shell) startup = false →
    ensureSourceLine shell startup =
      some (startup.getD [] ++ sourceBlock (rcFileName shell))) ∧
  (∀ shell lines, (shell = "bash" ∨ shell = "zsh") →
    (∀ l ∈ lines, lineHasSourceEvidence (rcFileName shell) l = false) →
    markerCount (ensureSourceLine shell (ensureSourceLine shell (some lines))) = 1)

/-- A startup file that already sources the RC file but carries no marker
comment: the presence check is true, so no block is ever appended, and the
marker count stays zero. -/
def startupWithLineOnly : List String :=
  ["[ -f ~/.mark_bash_rc ] && source ~/.mark_bash_rc"]

theorem lookupEntries_none_iff (l : List (String × FType)) (n : String) :
    lookupEntries l n = none ↔ n ∉ l.map Prod.fst := by
  induction l with
  | nil => simp [lookupEntries]
  | cons kv rest ih =>
    obtain ⟨k, v⟩ := kv
    by_cases hk : k = n
    · subst hk; simp [lookupEntries]
    · simp only [lookupEntries, if_neg hk, List.map_cons, List.mem_cons]
      rw [ih]
      constructor
      · intro hn hor
        rcases hor with h1 | h2
        · exact hk h1.symm
        · exact hn h2
      · intro hn h2
        exact hn (Or.inr h2)

theorem resolveN_node (fs : FS) :
    ∀ fuel p q, resolveN fs fuel p = some q →
      ∃ nd, fs.worldLookup q = some nd ∧ nd.isSymlink = false := by
  intro fuel
  induction fuel with
  | zero => intro p q h; simp [resolveN] at h
  | succ fuel ih =>
    intro p q h
    unfold resolveN at h
    cases hw : fs.worldLookup p with
    | none => rw [hw] at h; cases h
    | some nd =>
      rw [hw] at h
      cases nd with
      | dir => simp only [Option.some.injEq] at h; subst h; exact ⟨.dir, hw, rfl⟩
      | file => simp only [Option.some.injEq] at h; subst h; exact ⟨.file, hw, rfl⟩
      | symlink t => exact ih t q h

theorem resolve_node (fs : FS) (p q : String) (h : fs.resolve p = some q) :
    ∃ nd, fs.worldLookup q = some nd ∧ nd.isSymlink = false :=
  resolveN_node fs _ p q h

theorem statPath_of_resolved (fs : FS) (p q : String) (h : fs.resolve p = some q) :
    fs.statPath q = fs.worldLookup q := by
  obtain ⟨nd, hq, hns⟩ := resolve_node fs p q h
  cases nd with
  | dir => simp [FS.statPath, FS.resolve, resolveN, hq]
  | file => simp [FS.statPath, FS.resolve, resolveN, hq]
  | symlink t => simp [FType.isSymlink] at hns

theorem statPath_eq_none_iff (fs : FS) (p : String) :
    fs.statPath p = none ↔ fs.resolve p = none := by
  unfold FS.statPath
  cases hr : fs.resolve p with
  | none => simp
  | some q =>
    obtain ⟨nd, hq, _⟩ := resolve_node fs p q hr
    simp [hq]

theorem sanitizeName_eq_self (s : String) (h : (' ') ∉ s.data) :
    sanitizeName s = s := by
  unfold sanitizeName
  have h2 : s.data.map (fun c => if c = ' ' then '_' else c) = s.data := by
    conv_rhs => rw [← List.map_id s.data]
    exact List.map_congr_left fun c hc => by
      have hcs : ¬ c = ' ' := fun hce => h (hce ▸ hc)
      simp [hcs]
  rw [h2]

theorem sanitizeName_ne_empty (s : String) (h : s ≠ "") : sanitizeName s ≠ "" := by
  intro he
  apply h
  have h2 : (s.data.map fun c => if c = ' ' then '_' else c) = [] :=
    congrArg String.data he
  have h3 : s.data = [] := by simpa using h2
  obtain ⟨d⟩ := s
  simp only at h3
  subst h3
  rfl

theorem fs_with_exists_eq (fs : FS) (h : fs.marksDirExists = true) :
    ({ fs with marksDirExists := true } : FS) = fs := by
  cases fs with
  | mk e m w => simp_all

theorem marksLookup_exists_true (fs : FS) (n : String) (v : FType)
    (h : fs.marksLookup n = some v) : fs.marksDirExists = true := by
  unfold FS.marksLookup at h
  by_cases he : fs.marksDirExists <;> simp_all

theorem lookupEntries_erase_ne (l : List (String × FType)) (n m : String)
    (h : m ≠ n) : lookupEntries (eraseEntry l n) m = lookupEntries l m := by
  induction l with
  | nil => rfl
  | cons kv rest ih =>
    obtain ⟨k, v⟩ := kv
    by_cases hk : k = n
    · subst hk
      have hkm : ¬ k = m := fun hh => h hh.symm
      simp [eraseEntry, lookupEntries, hkm]
    · simp [eraseEntry, hk, lookupEntries, ih]

theorem lookupEntries_erase_self (l : List (String × FType)) (n : String)
    (h : (l.map Prod.fst).Nodup) : lookupEntries (eraseEntry l n) n = none := by
  induction l with
  | nil => rfl
  | cons kv rest ih =>
    obtain ⟨k, v⟩ := kv
    simp only [List.map_cons, List.nodup_cons] at h
    by_cases hk : k = n
    · subst hk
      simp only [eraseEntry, if_pos rfl]
      exact (lookupEntries_none_iff rest k).mpr h.1
    · simp [eraseEntry, hk, lookupEntries, ih h.2]

/-- C1: for every file system and nonempty name, `jumpBookmark` fails with
`NotFound` when no entry exists, `NotABookmark` when the entry is not a
symlink, `BrokenBookmark` when the link does not resolve, `NotADirectory`
when the resolved target is a file; on success it prints (returns) only
the fully resolved directory path obtained by following the whole symlink
chain, never the raw link text. -/
theorem jumpBookmark_spec (fs : FS) (name : String) (h : name ≠ "") :
    JumpClaim fs name := by
  refine ⟨?_, ?_, ?_, ?_, ?_, ?_⟩
  · intro hl; simp [jumpBookmark, h, hl]
  · intro e hl hs
    cases e with
    | dir => simp [jumpBookmark, h, hl]
    | file => simp [jumpBookmark, h, hl]
    | symlink t => simp [FType.isSymlink] at hs
  · intro t hl hr; simp [jumpBookmark, h, hl, hr]
  · intro t p hl hr hw
    have hst : fs.statPath p = fs.worldLookup p := statPath_of_resolved fs t p hr
    simp [jumpBookmark, h, hl, hr, hst, hw, FType.isDir]
  · intro t p hl hr hw
    have hst : fs.statPath p = fs.worldLookup p := statPath_of_resolved fs t p hr
    simp [jumpBookmark, h, hl, hr, hst, hw, FType.isDir]
  · intro t q hl hok
    cases hr : fs.resolve t with
    | none => simp [jumpBookmark, h, hl, hr] at hok
    | some p =>
      have hst : fs.statPath p = fs.worldLookup p := statPath_of_resolved fs t p hr
      obtain ⟨nd, hw, hns⟩ := resolve_node fs t p hr
      cases nd with
      | dir =>
        have hok2 : jumpBookmark fs name = .ok p := by
          simp [jumpBookmark, h, hl, hr, hst, hw, FType.isDir]
        rw [hok2] at hok
        simp only [Except.ok.injEq] at hok
        subst hok
        exact ⟨rfl, hw⟩
      | file =>
        have hok2 : jumpBookmark fs name = .error .notADirectory := by
          simp [jumpBookmark, h, hl, hr, hst, hw, FType.isDir]
        rw [hok2] at hok
        cases hok
      | symlink t2 => simp [FType.isSymlink] at hns

/-- Witness for C1: on the sample file system, jumping to `app` succeeds
and prints the resolved directory. -/
theorem jumpBookmark_spec_witness :
    (("app" : String) ≠ "" ∧ JumpClaim fsEx ("app")) ∧
      jumpBookmark fsEx ("app") = .ok ("/home/u/projects/app") :=
  ⟨⟨by decide, jumpBookmark_spec fsEx ("app") (by decide)⟩, rfl⟩

/-- C5: for every file system and nonempty name (with distinct entry
names, as in a real directory), `deleteBookmark` fails with `NotFound`
when no entry exists and `NotABookmark` when the entry is not a symlink —
never removing a real file or directory — and on success removes only the
symlink, leaving every other entry and the link's target untouched. -/
theorem deleteBookmark_spec (fs : FS) (name : String) (h : name ≠ "")
    (hnd : (fs.marks.map Prod.fst).Nodup) : DeleteClaim fs name := by
  refine ⟨?_, ?_, ?_⟩
  · intro hl; simp [deleteBookmark, h, hl]
  · intro e hl hs
    cases e with
    | dir => simp [deleteBookmark, h, hl]
    | file => simp [deleteBookmark, h, hl]
    | symlink t => simp [FType.isSymlink] at hs
  · intro t hl
    have he : fs.marksDirExists = true := marksLookup_exists_true fs name _ hl
    refine ⟨by simp [deleteBookmark, h, hl], ?_, ?_, by simp [deleteBookmark, h, hl]⟩
    · simp only [deleteBookmark, if_neg h, hl]
      simp [FS.marksLookup, he]
      exact lookupEntries_erase_self _ _ hnd
    · intro m hm
      simp only [deleteBookmark, if_neg h, hl]
      simp [FS.marksLookup, he]
      exact lookupEntries_erase_ne _ _ _ hm

/-- Witness for C5: deleting `app` from the sample file system succeeds. -/
theorem deleteBookmark_spec_witness :
    (("app" : String) ≠ "" ∧ (fsEx.marks.map Prod.fst).Nodup ∧
      DeleteClaim fsEx ("app")) ∧
      (deleteBookmark fsEx ("app")).2 = .ok () :=
  ⟨⟨by decide, by decide, deleteBookmark_spec fsEx ("app") (by decide) (by decide)⟩,
   rfl⟩

/-- C2: when the requested target directory exists and the (already
sanitized) name is valid but an entry of any type already occupies the
name, `createBookmark` fails with `AlreadyExists` and returns the file
system completely unchanged — in particular the pre-existing entry and the
original link's target are untouched and no symlink creation is
attempted. -/
theorem createBookmark_alreadyExists (fs : FS) (home cwd name targetPath : String)
    (e : FType)
    (hname : name ≠ "") (hspace : (' ') ∉ name.data)
    (hsep : containsSep name = false)
    (htp : targetPath ≠ "")
    (htd : fs.statPath (expandPath fs home targetPath) = some .dir)
    (hocc : fs.marksLookup name = some e) :
    createBookmark fs home cwd name targetPath = (fs, .error .alreadyExists) := by
  have hsan : sanitizeName name = name := sanitizeName_eq_self name hspace
  have he : fs.marksDirExists = true := marksLookup_exists_true fs name e hocc
  have hfs1 : ({ fs with marksDirExists := true } : FS) = fs := fs_with_exists_eq fs he
  have hlk : lookupEntries fs.marks name = some e := by
    unfold FS.marksLookup at hocc
    rw [he] at hocc
    simpa using hocc
  simp [createBookmark, htp, htd, hname, hsan, hsep, FS.marksLookup, hlk, hfs1]

/-- Witness for C2: `app` is already occupied in the sample file system,
so creating it again fails with `AlreadyExists` and leaves everything
unchanged. -/
theorem createBookmark_alreadyExists_witness :
    fsEx.marksLookup ("app") = some (.symlink ("/home/u/projects/app")) ∧
      createBookmark fsEx ("/home/u") ("/cwd") ("app") ("/tmp/x") =
        (fsEx, .error .alreadyExists) :=
  ⟨rfl,
   createBookmark_alreadyExists fsEx ("/home/u") ("/cwd") ("app") ("/tmp/x")
     (.symlink ("/home/u/projects/app"))
     (by decide) (by decide) (by decide) (by decide) (by decide) (by decide)⟩

/-- C3: with an existing target directory, the stored bookmark name is the
requested name with every space replaced by an underscore; when the
sanitized derived name still contains a path separator or is empty, create
fails with `InvalidName` and no symlink is created. -/
theorem createBookmark_name_spec (fs : FS) (home cwd name targetPath : String)
    (htp : targetPath ≠ "")
    (htd : fs.statPath (expandPath fs home targetPath) = some .dir) :
    CreateNameClaim fs home cwd name targetPath := by
  constructor
  · intro hname hsep hfree
    have hne : sanitizeName name ≠ "" := sanitizeName_ne_empty name hname
    simp [createBookmark, htp, htd, hname, hsep, hne, FS.marksLookup, hfree]
  · intro nm1 hnm1 hbad
    subst hnm1
    rcases hbad with hbad | hbad
    · simp [createBookmark, htp, htd, hbad]
    · have hsepf : containsSep
          (sanitizeName (if name = "" then baseName (expandPath fs home targetPath)
            else name)) = false := by
        rw [hbad]; rfl
      simp [createBookmark, htp, htd, hbad, hsepf]

/-- Witness for C3: creating `my mark` against the sample file system
stores the sanitized name `my_mark` (the spec's own example). -/
theorem createBookmark_name_spec_witness :
    (("/tmp/x" : String) ≠ "" ∧
      fsEx.statPath (expandPath fsEx ("/home/u") ("/tmp/x")) = some .dir ∧
      CreateNameClaim fsEx ("/home/u") ("/cwd") ("my mark") ("/tmp/x")) ∧
      (createBookmark fsEx ("/home/u") ("/cwd") ("my mark") ("/tmp/x")).2 =
        .ok ("my_mark") :=
  ⟨⟨by decide, by decide,
    createBookmark_name_spec fsEx ("/home/u") ("/cwd") ("my mark") ("/tmp/x")
      (by decide) (by decide)⟩, rfl⟩

theorem statPath_isNone_eq (fs : FS) (p : String) :
    (fs.statPath p).isNone = (fs.resolve p).isNone := by
  cases hr : fs.resolve p with
  | none => simp [FS.statPath, hr]
  | some q =>
    obtain ⟨nd, hq, _⟩ := resolve_node fs p q hr
    simp [FS.statPath, hr, hq]

/-- C4: `listBookmarks` yields the empty list (not an error) for a missing
or empty marks directory; its records are exactly the symbolic-link
entries of the directory (non-symlink entries are skipped), each broken
precisely when the link target does not currently resolve to an existing
path; and the output is sorted lexicographically by name. -/
theorem listBookmarks_spec :
    (∀ fs : FS, fs.marksDirExists = false → listBookmarks fs = []) ∧
    (∀ fs : FS, fs.marks = [] → listBookmarks fs = []) ∧
    (∀ (fs : FS) (b : BookmarkInfo),
      b ∈ listBookmarks fs ↔
        (fs.marksLookup b.name = some (.symlink b.target) ∧
         b.broken = (fs.resolve b.target).isNone)) ∧
    (∀ fs : FS, List.Sorted bookmarkLE (listBookmarks fs)) := by
  refine ⟨?_, ?_, ?_, ?_⟩
  · intro fs he; simp [listBookmarks, he]
  · intro fs hm
    by_cases he : fs.marksDirExists = false
    · simp [listBookmarks, he]
    · simp [listBookmarks, he, dirEntryNames, hm]
  · intro fs b
    obtain ⟨bn, bt, bb⟩ := b
    unfold listBookmarks
    by_cases he : fs.marksDirExists = false
    · simp [he, FS.marksLookup]
    · have he' : fs.marksDirExists = true := by
        cases hcase : fs.marksDirExists
        · exact absurd hcase he
        · rfl
      rw [if_neg he]
      rw [List.mem_insertionSort, List.mem_filterMap]
      constructor
      · rintro ⟨n, hn, hfn⟩
        cases hlk : lookupEntries fs.marks n with
        | none => rw [hlk] at hfn; cases hfn
        | some nd =>
          cases nd with
          | dir => rw [hlk] at hfn; cases hfn
          | file => rw [hlk] at hfn; cases hfn
          | symlink t =>
            rw [hlk] at hfn
            simp only [Option.some.injEq, BookmarkInfo.mk.injEq] at hfn
            obtain ⟨hbn, hbt, hbb⟩ := hfn
            subst hbn; subst hbt
            have hsm : fs.statMark n = fs.statPath t := by
              simp [FS.statMark, FS.marksLookup, he', hlk]
            constructor
            · simp [FS.marksLookup, he', hlk]
            · rw [← hbb, hsm, statPath_isNone_eq]
      · rintro ⟨hl, hb⟩
        have hlk : lookupEntries fs.marks bn = some (.symlink bt) := by
          unfold FS.marksLookup at hl
          rw [he'] at hl
          simpa using hl
        refine ⟨bn, ?_, ?_⟩
        · rw [dirEntryNames, List.mem_dedup]
          by_contra hmem
          rw [← lookupEntries_none_iff] at hmem
          rw [hmem] at hlk
          cases hlk
        · rw [hlk]
          have hsm : fs.statMark bn = fs.statPath bt := by
            simp [FS.statMark, FS.marksLookup, he', hlk]
          have hbb : (fs.statMark bn).isNone = bb := by
            rw [hsm, statPath_isNone_eq, ← hb]
          rw [hbb]
  · intro fs
    unfold listBookmarks
    by_cases he : fs.marksDirExists = false
    · rw [if_pos he]; exact List.sorted_nil
    · rw [if_neg he]
      exact List.sorted_insertionSort bookmarkLE _

/-- Witness for C4: the marks directory of `fsNoDir` does not exist and
the listing is empty; on `fsEx` the healthy bookmark `app` is listed with
`broken = false`. -/
theorem listBookmarks_spec_witness :
    (fsNoDir.marksDirExists = false ∧ listBookmarks fsNoDir = []) ∧
      (⟨"app", "/home/u/projects/app", false⟩ : BookmarkInfo) ∈ listBookmarks fsEx :=
  ⟨⟨rfl, listBookmarks_spec.1 fsNoDir rfl⟩,
   (listBookmarks_spec.2.2.1 fsEx ⟨("app"), ("/home/u/projects/app"), false⟩).mpr
     ⟨rfl, rfl⟩⟩

theorem ne_longFlag (a1 : Char) (atail2 : List Char) (hb : a1 ≠ '-')
    (lf : List Char) (hlf : lf.tail.head? = some '-') :
    ¬ ('-' :: a1 :: atail2) = lf := by
  intro h
  have h2 : (some a1 : Option Char) = lf.tail.head? :=
    congrArg (fun l => List.head? (List.tail l)) h
  rw [hlf] at h2
  exact hb (Option.some.inj h2)

theorem parseFlagsAux_nil (s : ParseState) :
    parseFlagsAux s [] =
      match s.pending with
      | .free => .ok (s.f, s.acc.reverse)
      | .forDelete => .error .deleteNeedsName
      | .forJump => .error .jumpNeedsName := by
  rw [parseFlagsAux]

theorem parseFlagsAux_cons (s : ParseState) (a : List Char)
    (rest : List (List Char)) :
    parseFlagsAux s (a :: rest) =
      match parseStep s a with
      | .error e => .error e
      | .ok s2 => parseFlagsAux s2 rest := by
  rw [parseFlagsAux]

theorem classifyArg_short (a1 : Char) (atail2 : List Char) (hb1 : a1 ≠ '-') :
    classifyArg ('-' :: a1 :: atail2) = .short (a1 :: atail2) := by
  simp [classifyArg, hb1]

theorem parseStep_shortBody (f : ParsedFlags) (acc : List (List Char))
    (body : List Char) (hne : body ≠ []) (hb : body.head? ≠ some '-') :
    parseStep ⟨f, acc, .free⟩ ('-' :: body) =
      match applyShort f body with
      | .done f2 => .ok ⟨f2, acc, .free⟩
      | .needDelete f2 => .ok ⟨f2, acc, .forDelete⟩
      | .needJump f2 => .ok ⟨f2, acc, .forJump⟩
      | .unknown ch => .error (.unknownFlag ch)
      | .dNotLast => .error .deleteNotLast
      | .jNotLast => .error .jumpNotLast := by
  cases body with
  | nil => exact absurd rfl hne
  | cons a1 atail2 =>
    have hb1 : a1 ≠ '-' := by simpa using hb
    unfold parseStep
    rw [if_neg (ne_longFlag a1 atail2 hb1 ("--help".data) rfl),
        if_neg (ne_longFlag a1 atail2 hb1 ("--version".data) rfl),
        if_neg (ne_longFlag a1 atail2 hb1 ("--config".data) rfl),
        if_neg (ne_longFlag a1 atail2 hb1 ("--autocomplete".data) rfl),
        if_neg (ne_longFlag a1 atail2 hb1 ("--alias".data) rfl),
        classifyArg_short a1 atail2 hb1]

theorem applyShort_append_simple (pre : List Char) :
    ∀ f : ParsedFlags, (∀ x ∈ pre, x = 'v' ∨ x = 'h' ∨ x = 'l') →
      ∀ tail2 : List Char,
        applyShort f (pre ++ tail2) = applyShort (applySimple f pre) tail2 := by
  induction pre with
  | nil => intro f _ tail2; simp [applySimple]
  | cons x xs ih =>
    intro f h tail2
    have hxs : ∀ y ∈ xs, y = 'v' ∨ y = 'h' ∨ y = 'l' := fun y hy => h y (by simp [hy])
    have happ : applySimple f (x :: xs) = applySimple (setSimple f x) xs := rfl
    rcases h x (by simp) with hx | hx | hx <;> subst hx <;>
      simp [applyShort, happ, setSimple, ih _ hxs]

theorem applyShort_mid_isFail (c : Char) (hc : c = 'd' ∨ c = 'j') (suf : List Char)
    (hs : suf ≠ []) :
    ∀ (pre : List Char) (f : ParsedFlags),
      (applyShort f (pre ++ c :: suf)).isFail = true := by
  intro pre
  induction pre with
  | nil =>
    intro f
    rcases hc with hc | hc <;> subst hc <;>
      simp [applyShort, hs, ShortOutcome.isFail]
  | cons x xs ih =>
    intro f
    by_cases hv : x = 'v'
    · subst hv
      show (applyShort { f with Version := true } (xs ++ c :: suf)).isFail = true
      exact ih _
    by_cases hh : x = 'h'
    · subst hh
      show (applyShort { f with Help := true } (xs ++ c :: suf)).isFail = true
      exact ih _
    by_cases hl : x = 'l'
    · subst hl
      show (applyShort { f with List := true } (xs ++ c :: suf)).isFail = true
      exact ih _
    by_cases hd : x = 'd'
    · subst hd
      have hcs : xs ++ c :: suf ≠ [] := by simp
      simp [applyShort, hcs, ShortOutcome.isFail]
    by_cases hj : x = 'j'
    · subst hj
      have hcs : xs ++ c :: suf ≠ [] := by simp
      simp [applyShort, hcs, ShortOutcome.isFail]
    · simp [applyShort, hv, hh, hl, hd, hj, ShortOutcome.isFail]

theorem applyShort_last_not_done (c : Char) (hc : c = 'd' ∨ c = 'j') :
    ∀ (pre : List Char) (f : ParsedFlags),
      (applyShort f (pre ++ [c])).isDone = false := by
  intro pre
  induction pre with
  | nil =>
    intro f
    rcases hc with hc | hc <;> subst hc <;>
      simp [applyShort, ShortOutcome.isDone]
  | cons x xs ih =>
    intro f
    by_cases hv : x = 'v'
    · subst hv
      show (applyShort { f with Version := true } (xs ++ [c])).isDone = false
      exact ih _
    by_cases hh : x = 'h'
    · subst hh
      show (applyShort { f with Help := true } (xs ++ [c])).isDone = false
      exact ih _
    by_cases hl : x = 'l'
    · subst hl
      show (applyShort { f with List := true } (xs ++ [c])).isDone = false
      exact ih _
    by_cases hd : x = 'd'
    · subst hd
      have hcs : ¬ xs ++ [c] = [] := by simp
      simp [applyShort, hcs, ShortOutcome.isDone]
    by_cases hj : x = 'j'
    · subst hj
      have hcs : ¬ xs ++ [c] = [] := by simp
      simp [applyShort, hcs, ShortOutcome.isDone]
    · simp [applyShort, hv, hh, hl, hd, hj, ShortOutcome.isDone]

theorem pair_ne_of_length (ch : Char) (lf : List Char) (hlen : ¬ lf.length = 2) :
    ¬ (['-', ch] = lf) := fun heq => hlen ((congrArg List.length heq).symm)

/-- C9: a `-d`/`-j` occurring anywhere but the last position of a combined
short-flag group is a fatal error, as is a trailing `-d`/`-j` with no
following argument; when `-d`/`-j` is last in its group and an argument
follows, that argument is consumed as the bookmark name and never becomes
a positional argument. -/
theorem parseFlags_shortFlag_spec : ShortFlagClaim := by
  refine ⟨?_, ?_, ?_, ?_⟩
  · intro pre c suf rest hc hs hhead
    have hne : pre ++ c :: suf ≠ [] := by simp
    rw [parseFlags, parseFlagsAux_cons,
        parseStep_shortBody {} [] (pre ++ c :: suf) hne hhead]
    have hfail := applyShort_mid_isFail c hc suf hs pre {}
    cases hout : applyShort {} (pre ++ c :: suf) with
    | done f2 => rw [hout] at hfail; simp [ShortOutcome.isFail] at hfail
    | needDelete f2 => rw [hout] at hfail; simp [ShortOutcome.isFail] at hfail
    | needJump f2 => rw [hout] at hfail; simp [ShortOutcome.isFail] at hfail
    | unknown ch => exact ⟨.unknownFlag ch, rfl⟩
    | dNotLast => exact ⟨.deleteNotLast, rfl⟩
    | jNotLast => exact ⟨.jumpNotLast, rfl⟩
  · intro pre c hc hhead
    have hne : pre ++ [c] ≠ [] := by simp
    rw [parseFlags, parseFlagsAux_cons,
        parseStep_shortBody {} [] (pre ++ [c]) hne hhead]
    have hnd := applyShort_last_not_done c hc pre {}
    cases hout : applyShort {} (pre ++ [c]) with
    | done f2 => rw [hout] at hnd; simp [ShortOutcome.isDone] at hnd
    | needDelete f2 =>
      refine ⟨.deleteNeedsName, ?_⟩
      show parseFlagsAux ⟨f2, [], .forDelete⟩ [] = .error .deleteNeedsName
      rw [parseFlagsAux_nil]
    | needJump f2 =>
      refine ⟨.jumpNeedsName, ?_⟩
      show parseFlagsAux ⟨f2, [], .forJump⟩ [] = .error .jumpNeedsName
      rw [parseFlagsAux_nil]
    | unknown ch => exact ⟨.unknownFlag ch, rfl⟩
    | dNotLast => exact ⟨.deleteNotLast, rfl⟩
    | jNotLast => exact ⟨.jumpNotLast, rfl⟩
  · intro pre name rest f acc hpre
    have hne : pre ++ ['d'] ≠ [] := by simp
    have hhead : (pre ++ ['d']).head? ≠ some '-' := by
      cases pre with
      | nil => decide
      | cons x xs =>
        rcases hpre x (by simp) with hx | hx | hx <;> subst hx <;> simp
    rw [parseFlagsAux_cons,
        parseStep_shortBody f acc (pre ++ ['d']) hne hhead,
        applyShort_append_simple pre f hpre ['d'],
        show applyShort (applySimple f pre) ['d'] =
          .needDelete (applySimple f pre) from rfl]
    show parseFlagsAux ⟨applySimple f pre, acc, .forDelete⟩ (name :: rest) =
      parseFlagsAux ⟨{ applySimple f pre with Delete := name }, acc, .free⟩ rest
    rw [parseFlagsAux_cons,
        show parseStep ⟨applySimple f pre, acc, .forDelete⟩ name =
          .ok ⟨{ applySimple f pre with Delete := name }, acc, .free⟩ from rfl]
  · intro pre name rest f acc hpre
    have hne : pre ++ ['j'] ≠ [] := by simp
    have hhead : (pre ++ ['j']).head? ≠ some '-' := by
      cases pre with
      | nil => decide
      | cons x xs =>
        rcases hpre x (by simp) with hx | hx | hx <;> subst hx <;> simp
    rw [parseFlagsAux_cons,
        parseStep_shortBody f acc (pre ++ ['j']) hne hhead,
        applyShort_append_simple pre f hpre ['j'],
        show applyShort (applySimple f pre) ['j'] =
          .needJump (applySimple f pre) from rfl]
    show parseFlagsAux ⟨applySimple f pre, acc, .forJump⟩ (name :: rest) =
      parseFlagsAux ⟨{ applySimple f pre with Jump := name }, acc, .free⟩ rest
    rw [parseFlagsAux_cons,
        show parseStep ⟨applySimple f pre, acc, .forJump⟩ name =
          .ok ⟨{ applySimple f pre with Jump := name }, acc, .free⟩ from rfl]

/-- Witness for C9: `mark -d x` consumes `x` as the delete argument and
leaves no positional arguments. -/
theorem parseFlags_shortFlag_spec_witness :
    ((∀ x ∈ ([] : List Char), x = 'v' ∨ x = 'h' ∨ x = 'l') ∧
      parseFlagsAux ⟨{}, [], .free⟩
          (('-' :: (([] : List Char) ++ ['d'])) :: ("x".data) :: []) =
        parseFlagsAux ⟨{ applySimple {} [] with Delete := ("x".data) }, [], .free⟩ []) ∧
      parseFlags [['-', 'd'], ("x".data)] = .ok ({ Delete := ("x".data) }, []) :=
  ⟨⟨by simp, parseFlags_shortFlag_spec.2.2.1 [] ("x".data) [] {} [] (by simp)⟩, rfl⟩

/-- C10: an unrecognized long option is passed through as a positional
argument — `mark --foo` dispatches to bookmark creation with name
`--foo` — while an unrecognized short-flag letter is a fatal error. -/
theorem parseFlags_longFlag_spec : LongFlagClaim := by
  have hpass : ∀ (t : List Char) (rest acc : List (List Char)) (f : ParsedFlags),
      ('-' :: '-' :: t) ∉ longFlags →
      parseFlagsAux ⟨f, acc, .free⟩ (('-' :: '-' :: t) :: rest) =
        parseFlagsAux ⟨f, ('-' :: '-' :: t) :: acc, .free⟩ rest := by
    intro t rest acc f hmem
    simp only [longFlags, List.mem_cons, List.not_mem_nil, or_false, not_or] at hmem
    obtain ⟨h1, h2, h3, h4, h5⟩ := hmem
    rw [parseFlagsAux_cons]
    unfold parseStep
    rw [if_neg h1, if_neg h2, if_neg h3, if_neg h4, if_neg h5,
        show classifyArg ('-' :: '-' :: t) = .positional from rfl]
  refine ⟨hpass, ?_, ?_, ?_⟩
  · intro t hmem
    rw [parseFlags, hpass t [] [] {} hmem, parseFlagsAux_nil]
    rfl
  · exact ⟨rfl, rfl⟩
  · intro ch h1 h2 h3 h4 h5 h6
    rw [parseFlags, parseFlagsAux_cons]
    unfold parseStep
    rw [if_neg (pair_ne_of_length ch ("--help".data) (by decide)),
        if_neg (pair_ne_of_length ch ("--version".data) (by decide)),
        if_neg (pair_ne_of_length ch ("--config".data) (by decide)),
        if_neg (pair_ne_of_length ch ("--autocomplete".data) (by decide)),
        if_neg (pair_ne_of_length ch ("--alias".data) (by decide)),
        classifyArg_short ch [] h6]
    simp [applyShort, h1, h2, h3, h4, h5]

/-- Witness for C10: `--foo` is not one of the recognized long options,
is passed through, and dispatches to creation of a bookmark named
`--foo`. -/
theorem parseFlags_longFlag_spec_witness :
    (("--foo".data ∉ longFlags) ∧
      parseFlags [("--foo".data)] = .ok ({}, [("--foo".data)])) ∧
      dispatch {} [("--foo".data)] = .createMark ("--foo".data) [] :=
  ⟨⟨by decide, parseFlags_longFlag_spec.2.1 ("foo".data) (by decide)⟩, rfl⟩

theorem getEnabledFeatures_of_find (lines : List String) (l : String)
    (h : lines.find? isFeaturesLine = some l) :
    getEnabledFeatures (some lines) =
      ((wordsOf l).contains ("aliases".data),
       (wordsOf l).contains ("completions".data)) := by
  simp [getEnabledFeatures, h]

theorem find_features_skip (l : String) (h : isFeaturesLine l = false)
    (rest : List String) :
    (l :: rest).find? isFeaturesLine = rest.find? isFeaturesLine :=
  List.find?_cons_of_neg _ (by simp [h])

theorem find_features_here (l : String) (h : isFeaturesLine l = true)
    (rest : List String) :
    (l :: rest).find? isFeaturesLine = some l :=
  List.find?_cons_of_pos _ h

theorem isFeaturesLine_featuresLine : ∀ a c : Bool,
    isFeaturesLine (featuresLine a c) = true := by decide

theorem roundTrip_bash (mp : String) (a c : Bool) :
    getEnabledFeatures (some (generateBashRC mp a c)) =
      ((wordsOf (featuresLine a c)).contains ("aliases".data),
       (wordsOf (featuresLine a c)).contains ("completions".data)) := by
  apply getEnabledFeatures_of_find
  simp only [generateBashRC]
  rw [find_features_skip _ (by decide), find_features_skip _ (by decide),
      find_features_skip _ (by decide)]
  exact find_features_here _ (isFeaturesLine_featuresLine a c) _

theorem roundTrip_zsh (mp : String) (a c : Bool) :
    getEnabledFeatures (some (generateZshRC mp a c)) =
      ((wordsOf (featuresLine a c)).contains ("aliases".data),
       (wordsOf (featuresLine a c)).contains ("completions".data)) := by
  apply getEnabledFeatures_of_find
  simp only [generateZshRC]
  rw [find_features_skip _ (by decide), find_features_skip _ (by decide),
      find_features_skip _ (by decide)]
  exact find_features_here _ (isFeaturesLine_featuresLine a c) _

theorem roundTrip_fish (mp : String) (a c : Bool) :
    getEnabledFeatures (some (generateFishRC mp a c)) =
      ((wordsOf (featuresLine a c)).contains ("aliases".data),
       (wordsOf (featuresLine a c)).contains ("completions".data)) := by
  apply getEnabledFeatures_of_find
  simp only [generateFishRC]
  rw [find_features_skip _ (by decide), find_features_skip _ (by decide)]
  exact find_features_here _ (isFeaturesLine_featuresLine a c) _

theorem header_bash (mp : String) (a c : Bool) :
    ((generateBashRC mp a c).take 4).any isFeaturesLine = true := by
  have ht : (generateBashRC mp a c).take 4 =
      ["#!/bin/bash", "# mark shell configuration", "# Generated by mark",
       featuresLine a c] := rfl
  rw [ht]
  simp [isFeaturesLine_featuresLine a c]

theorem header_zsh (mp : String) (a c : Bool) :
    ((generateZshRC mp a c).take 4).any isFeaturesLine = true := by
  have ht : (generateZshRC mp a c).take 4 =
      ["#!/bin/zsh", "# mark shell configuration", "# Generated by mark",
       featuresLine a c] := rfl
  rw [ht]
  simp [isFeaturesLine_featuresLine a c]

theorem header_fish (mp : String) (a c : Bool) :
    ((generateFishRC mp a c).take 4).any isFeaturesLine = true := by
  have ht : (generateFishRC mp a c).take 4 =
      "# mark shell configuration" :: "# Generated by mark" :: featuresLine a c ::
        (((if a then fishAliasLines mp else [])
          ++ (if c then fishCompletionLines mp else [])).take 1) := rfl
  rw [ht]
  simp [isFeaturesLine_featuresLine a c]

/-- C6: for every supported shell and every feature combination in
`{(T,F), (F,T), (T,T)}`, the generated RC text carries the machine-parsable
`# Features:` line in its header, and `getEnabledFeatures` on the generated
file returns exactly the booleans used to create it; a missing file or a
file without the header yields `(false, false)`. -/
theorem getEnabledFeatures_roundTrip :
    (∀ (shell markBinaryPath : String) (a c : Bool) (content : List String),
      shell ∈ (["bash", "zsh", "fish"] : List String) →
      (a, c) ∈ ([(true, false), (false, true), (true, true)] : List (Bool × Bool)) →
      generateRC shell markBinaryPath a c = some content →
      ((content.take 4).any isFeaturesLine = true ∧
        getEnabledFeatures (some content) = (a, c))) ∧
    getEnabledFeatures none = (false, false) ∧
    (∀ lines : List String, lines.find? isFeaturesLine = none →
      getEnabledFeatures (some lines) = (false, false)) := by
  refine ⟨?_, rfl, ?_⟩
  · intro shell markBinaryPath a c content hshell hcombo hgen
    have hac : (a, c) = (true, false) ∨ (a, c) = (false, true) ∨
        (a, c) = (true, true) := by simpa using hcombo
    have hac2 : (a = true ∧ c = false) ∨ (a = false ∧ c = true) ∨
        (a = true ∧ c = true) := by
      rcases hac with h | h | h
      · exact Or.inl ⟨congrArg Prod.fst h, congrArg Prod.snd h⟩
      · exact Or.inr (Or.inl ⟨congrArg Prod.fst h, congrArg Prod.snd h⟩)
      · exact Or.inr (Or.inr ⟨congrArg Prod.fst h, congrArg Prod.snd h⟩)
    have hs : shell = "bash" ∨ shell = "zsh" ∨ shell = "fish" := by simpa using hshell
    rcases hs with hsh | hsh | hsh <;> subst hsh
    · have hg : generateBashRC markBinaryPath a c = content := by
        simpa [generateRC] using hgen
      subst hg
      refine ⟨header_bash _ _ _, ?_⟩
      rw [roundTrip_bash]
      rcases hac2 with ⟨ha, hc⟩ | ⟨ha, hc⟩ | ⟨ha, hc⟩ <;> subst ha <;> subst hc <;> decide
    · have hg : generateZshRC markBinaryPath a c = content := by
        simpa [generateRC] using hgen
      subst hg
      refine ⟨header_zsh _ _ _, ?_⟩
      rw [roundTrip_zsh]
      rcases hac2 with ⟨ha, hc⟩ | ⟨ha, hc⟩ | ⟨ha, hc⟩ <;> subst ha <;> subst hc <;> decide
    · have hg : generateFishRC markBinaryPath a c = content := by
        simpa [generateRC] using hgen
      subst hg
      refine ⟨header_fish _ _ _, ?_⟩
      rw [roundTrip_fish]
      rcases hac2 with ⟨ha, hc⟩ | ⟨ha, hc⟩ | ⟨ha, hc⟩ <;> subst ha <;> subst hc <;> decide
  · intro lines hf
    simp [getEnabledFeatures, hf]

/-- Witness for C6: the bash RC generated with aliases only round-trips to
`(true, false)`. -/
theorem getEnabledFeatures_roundTrip_witness :
    ((("bash" : String) ∈ (["bash", "zsh", "fish"] : List String)) ∧
      ((true, false) ∈ ([(true, false), (false, true), (true, true)] :
        List (Bool × Bool))) ∧
      generateRC ("bash") ("/bin/mark") true false =
        some (generateBashRC ("/bin/mark") true false)) ∧
      (((generateBashRC ("/bin/mark") true false).take 4).any isFeaturesLine = true ∧
        getEnabledFeatures (some (generateBashRC ("/bin/mark") true false)) =
          (true, false)) :=
  ⟨⟨by decide, by decide, rfl⟩,
   getEnabledFeatures_roundTrip.1 ("bash") ("/bin/mark") true false
     (generateBashRC ("/bin/mark") true false) (by decide) (by decide) rfl⟩

/-- C8: the RC files are written at the fixed paths `~/.mark_bash_rc`,
`~/.mark_zsh_rc` and `~/.config/fish/conf.d/mark.fish`, and every written
file begins with a header comment block containing a `# Features:` line. -/
theorem rcFilePaths_spec (home markBinaryPath : String) (a c : Bool) :
    getRCFilePath home ("bash") = home ++ "/.mark_bash_rc" ∧
    getRCFilePath home ("zsh") = home ++ "/.mark_zsh_rc" ∧
    getRCFilePath home ("fish") = home ++ "/.config/fish/conf.d/mark.fish" ∧
    (∀ (shell : String) (path : String) (content : List String),
      shell ∈ (["bash", "zsh", "fish"] : List String) →
      writeShellRC home shell markBinaryPath a c = .ok (path, content) →
      path = getRCFilePath home shell ∧ RCHeaderProp content) := by
  refine ⟨by simp [getRCFilePath], by simp [getRCFilePath], by simp [getRCFilePath], ?_⟩
  intro shell path content hshell hw
  have hs : shell = "bash" ∨ shell = "zsh" ∨ shell = "fish" := by simpa using hshell
  rcases hs with hsh | hsh | hsh <;> subst hsh
  · have hw2 : (Except.ok (getRCFilePath home ("bash"),
        generateBashRC markBinaryPath a c) :
        Except MarkError (String × List String)) = .ok (path, content) := by
      rw [← hw]
      rfl
    have h3 := Except.ok.inj hw2
    have hp : path = getRCFilePath home ("bash") := (congrArg Prod.fst h3).symm
    have hc2 : content = generateBashRC markBinaryPath a c :=
      (congrArg Prod.snd h3).symm
    subst hc2
    refine ⟨hp, ?_⟩
    refine ⟨["#!/bin/bash", "# mark shell configuration", "# Generated by mark",
      featuresLine a c],
      (if a then posixAliasLines markBinaryPath else [])
        ++ (if c then bashCompletionLines markBinaryPath else []), rfl, by simp, ?_, ?_⟩
    · intro l hl
      simp only [List.mem_cons, List.not_mem_nil, or_false] at hl
      rcases hl with h | h | h | h <;> subst h
      · decide
      · decide
      · decide
      · cases a <;> cases c <;> decide
    · exact ⟨featuresLine a c, by simp, isFeaturesLine_featuresLine a c⟩
  · have hw2 : (Except.ok (getRCFilePath home ("zsh"),
        generateZshRC markBinaryPath a c) :
        Except MarkError (String × List String)) = .ok (path, content) := by
      rw [← hw]
      rfl
    have h3 := Except.ok.inj hw2
    have hp : path = getRCFilePath home ("zsh") := (congrArg Prod.fst h3).symm
    have hc2 : content = generateZshRC markBinaryPath a c :=
      (congrArg Prod.snd h3).symm
    subst hc2
    refine ⟨hp, ?_⟩
    refine ⟨["#!/bin/zsh", "# mark shell configuration", "# Generated by mark",
      featuresLine a c],
      (if a then posixAliasLines markBinaryPath else [])
        ++ (if c then zshCompletionLines markBinaryPath else []), rfl, by simp, ?_, ?_⟩
    · intro l hl
      simp only [List.mem_cons, List.not_mem_nil, or_false] at hl
      rcases hl with h | h | h | h <;> subst h
      · decide
      · decide
      · decide
      · cases a <;> cases c <;> decide
    · exact ⟨featuresLine a c, by simp, isFeaturesLine_featuresLine a c⟩
  · have hw2 : (Except.ok (getRCFilePath home ("fish"),
        generateFishRC markBinaryPath a c) :
        Except MarkError (String × List String)) = .ok (path, content) := by
      rw [← hw]
      rfl
    have h3 := Except.ok.inj hw2
    have hp : path = getRCFilePath home ("fish") := (congrArg Prod.fst h3).symm
    have hc2 : content = generateFishRC markBinaryPath a c :=
      (congrArg Prod.snd h3).symm
    subst hc2
    refine ⟨hp, ?_⟩
    refine ⟨["# mark shell configuration", "# Generated by mark", featuresLine a c],
      (if a then fishAliasLines markBinaryPath else [])
        ++ (if c then fishCompletionLines markBinaryPath else []), rfl, by simp, ?_, ?_⟩
    · intro l hl
      simp only [List.mem_cons, List.not_mem_nil, or_false] at hl
      rcases hl with h | h | h <;> subst h
      · decide
      · decide
      · cases a <;> cases c <;> decide
    · exact ⟨featuresLine a c, by simp, isFeaturesLine_featuresLine a c⟩

/-- Witness for C8: writing the bash RC with both features lands at
`/h/.mark_bash_rc` and the content satisfies the header property. -/
theorem rcFilePaths_spec_witness :
    ((("bash" : String) ∈ (["bash", "zsh", "fish"] : List String)) ∧
      writeShellRC ("/h") ("bash") ("/bin/mark") true true =
        .ok (("/h/.mark_bash_rc"), generateBashRC ("/bin/mark") true true)) ∧
      ((("/h/.mark_bash_rc") : String) = getRCFilePath ("/h") ("bash") ∧
        RCHeaderProp (generateBashRC ("/bin/mark") true true)) :=
  ⟨⟨by decide, rfl⟩,
   (rcFilePaths_spec ("/h") ("/bin/mark") true true).2.2.2 ("bash")
     ("/h/.mark_bash_rc") (generateBashRC ("/bin/mark") true true)
     (by decide) rfl⟩

/-- Amended C7 (proved): the installer appends its marked block only when
the presence check is false, and on an initially evidence-free startup file
two successive calls leave exactly one occurrence of the marker comment. -/
theorem ensureSourceLine_spec : EnsureClaim := by
  have h1 : ∀ shell startup, isSourceLinePresent (rcFileName shell) startup = true →
      ensureSourceLine shell startup = startup := by
    intro shell startup hpres
    by_cases hsh : shell = "bash" ∨ shell = "zsh"
    · simp [ensureSourceLine, hsh, hpres]
    · simp [ensureSourceLine, hsh]
  have h2 : ∀ shell startup, (shell = "bash" ∨ shell = "zsh") →
      isSourceLinePresent (rcFileName shell) startup = false →
      ensureSourceLine shell startup =
        some (startup.getD [] ++ sourceBlock (rcFileName shell)) := by
    intro shell startup hsh hpres
    simp [ensureSourceLine, hsh, hpres]
  refine ⟨h1, h2, ?_⟩
  intro shell lines hsh hclean
  have hpres1 : isSourceLinePresent (rcFileName shell) (some lines) = false := by
    simp only [isSourceLinePresent]
    rw [List.any_eq_false]
    intro l hl
    simp [hclean l hl]
  rw [h2 shell (some lines) hsh hpres1]
  have hself : hasSubstring markerComment.data markerComment.data = true := by decide
  have hpres2 : isSourceLinePresent (rcFileName shell)
      (some ((some lines).getD [] ++ sourceBlock (rcFileName shell))) = true := by
    simp only [isSourceLinePresent]
    rw [List.any_eq_true]
    exact ⟨markerComment, by simp [sourceBlock],
      by simp [lineHasSourceEvidence, hself]⟩
  rw [h1 _ _ hpres2]
  simp only [markerCount, Option.getD]
  rw [List.countP_append]
  have hc0 : lines.countP (fun l => hasSubstring markerComment.data l.data) = 0 := by
    rw [List.countP_eq_zero]
    intro l hl
    have hev := hclean l hl
    simp only [lineHasSourceEvidence, Bool.or_eq_false_iff] at hev
    simp [hev.2]
  have hcb : (sourceBlock (rcFileName shell)).countP
      (fun l => hasSubstring markerComment.data l.data) = 1 := by
    rcases hsh with hsh | hsh <;> subst hsh <;> decide
  rw [hc0, hcb]

/-- Witness for the amended C7: two calls on `# existing content` (the
repository test's scenario) leave exactly one marker comment. -/
theorem ensureSourceLine_spec_witness :
    (((("bash" : String) = "bash" ∨ ("bash" : String) = "zsh")) ∧
      (∀ l ∈ (["# existing content"] : List String),
        lineHasSourceEvidence (rcFileName ("bash")) l = false)) ∧
      markerCount (ensureSourceLine ("bash")
        (ensureSourceLine ("bash") (some ["# existing content"]))) = 1 :=
  ⟨⟨Or.inl rfl, by decide⟩,
   ensureSourceLine_spec.2.2 ("bash") ["# existing content"] (Or.inl rfl) (by decide)⟩

/-- Counterexample to C7 as stated: a startup file that already contains
the plain source line (but not the marker comment) passes the presence
check, so two calls append nothing and the marker count stays `0`, not
`1` — the claim's `for every initial startup-file content` fails. -/
theorem ensureSourceLine_counterexample :
    ensureSourceLine ("bash") (ensureSourceLine ("bash") (some startupWithLineOnly)) =
        some startupWithLineOnly ∧
      markerCount (ensureSourceLine ("bash")
        (ensureSourceLine ("bash") (some startupWithLineOnly))) = 0 ∧
      markerCount (ensureSourceLine ("bash")
        (ensureSourceLine ("bash") (some startupWithLineOnly))) ≠ 1 := by
  refine ⟨?_, ?_, ?_⟩ <;> decide

end Mark
